import Mathlib

/-!
Shallow embedding of the ab604/link-checker pipeline.

Source files modelled here:
* `src/external_link_checker.py` — crawl of an internal site, skip-list
  filtering, internal/external classification, external-link checking.
* `src/url-checker.py` — batch URL validator built on `aiohttp` + `tenacity`.
* `src/get-links.py` — Playwright-based link collector (`get_links`,
  `crawl_site`).
* `src/get-all-library-links.py` — BFS crawler with a `deque` frontier.

Conventions: Python strings are `String`; Python sets are represented either
as `Finset` (where the pop order is irrelevant or handled relationally) or as
duplicate-free lists built with an add-if-absent operation (`insertL`), which
is faithful to set semantics at the level of membership — the only level at
which the code observes them.  Machine integers do not overflow in any of the
quantities involved (line numbers, attempt counters), so `Nat` is used
directly.
-/

namespace LinkChecker

/-- Result of `urllib.parse.urlparse` on an absolute URL string: the five
components the scripts actually read (`params` is never consulted). -/
structure Url where
  scheme : String
  netloc : String
  path : String
  query : String
  fragment : String
deriving DecidableEq, Repr

/-- The raw `href` forms that occur in the repository's pages and claims,
as classified by `urllib.parse.urlparse`:

* `absolute u` — an href carrying its own scheme (and possibly netloc),
  e.g. `http://external.test/x`;
* `rootPath p q` — an absolute-path reference such as `/a` (optionally with
  a query);
* `fragmentOnly f` — a same-document reference `#f`;
* `otherScheme s rest` — a non-hierarchical reference such as
  `javascript:void(0)`, `mailto:x`, `tel:123`.

Relative (non-root) path references and dot segments are not exercised by
any claim and are not modelled. -/
inductive Href where
  | absolute (u : Url)
  | rootPath (p : String) (q : String)
  | fragmentOnly (f : String)
  | otherScheme (s : String) (rest : String)
deriving DecidableEq, Repr

/-- Python's merge of a relative path into a base path
(`bpath.split('/')[:-1] + rel.split('/')` re-joined); dot segments do not
occur in the modelled inputs. -/
def mergeRelPath (bpath rel : String) : String :=
  String.intercalate "/" ((bpath.splitOn "/").dropLast ++ [rel])

/-- `urllib.parse.urljoin base href`, specialised to the href forms above.

* an absolute href with a different scheme, or with its own netloc, is
  returned unchanged;
* an absolute href with the base's scheme and an empty netloc inherits the
  base's netloc;
* `/p?q` keeps the base's scheme and netloc and replaces path and query;
* `#f` is the base URL with the fragment replaced;
* a reference under another scheme is returned as parsed when its scheme
  differs from the base's, and resolved against the base (netloc inherited,
  path merged) when it coincides. -/
def urljoin (base : Url) : Href → Url
  | .absolute u =>
      if u.scheme == base.scheme && u.netloc == "" then
        { u with netloc := base.netloc }
      else u
  | .rootPath p q =>
      { scheme := base.scheme, netloc := base.netloc, path := p,
        query := q, fragment := "" }
  | .fragmentOnly f => { base with fragment := f }
  | .otherScheme s rest =>
      if s == base.scheme then
        { scheme := s, netloc := base.netloc,
          path := mergeRelPath base.path rest, query := "", fragment := "" }
      else
        { scheme := s, netloc := "", path := rest, query := "", fragment := "" }

/-- `a.isPrefixOf b` on character lists (Boolean). -/
def prefAux : List Char → List Char → Bool
  | [], _ => true
  | _ :: _, [] => false
  | a :: as, b :: bs => a == b && prefAux as bs

/-- Python's substring test `needle in hay` on character lists: some suffix
of `hay` has `needle` as a prefix. -/
def containsAux (needle : List Char) : List Char → Bool
  | [] => needle.isEmpty
  | c :: cs => prefAux needle (c :: cs) || containsAux needle cs

/-- Python's `needle in hay` on strings. -/
def strContains (hay needle : String) : Bool :=
  containsAux needle.data hay.data

/-- `SKIP_DOMAINS` of `external_link_checker.py` (lines 11-16). -/
def SKIP_DOMAINS : List String :=
  ["eprints.soton.ac.uk", "facebook.com", "google.com"]

/-- `SKIP_URLS` of `external_link_checker.py` (lines 18-22), parsed.  The
source compares serialized URL strings for equality; on parsed components
this is structural equality of `Url`. -/
def SKIP_URLS : List Url :=
  [{ scheme := "https", netloc := "www.specific-page-to-skip.com",
     path := "/page", query := "", fragment := "" },
   { scheme := "https", netloc := "another-specific-page.org",
     path := "/skip-this", query := "", fragment := "" }]

/-- The skip test of `external_link_checker.py` (lines 57, 82, 98):
`any(domain in parsed_url.netloc for domain in SKIP_DOMAINS) or url in SKIP_URLS`.
Note the domain test is Python's substring operator `in`, not a suffix
match. -/
def isSkippedIn (sd : List String) (su : List Url) (u : Url) : Bool :=
  sd.any (fun d => strContains u.netloc d) || su.contains u

/-- The skip test with the repository's hard-coded lists. -/
def isSkippedUrl (u : Url) : Bool :=
  isSkippedIn SKIP_DOMAINS SKIP_URLS u

inductive LinkClass where
  | internal
  | external
deriving DecidableEq, Repr

/-- Python's `s.endswith(suffix)`, expressed on the character lists. -/
def strEndsWith (s suf : String) : Bool :=
  suf.data.isSuffixOf s.data

/-- The classification branch of `external_link_checker.get_links`
(lines 60-63): internal when
`parsed_url.netloc.endswith('soton.ac.uk') and parsed_url.scheme in ['http','https']`,
external when only the scheme test passes, otherwise the href is dropped. -/
def classifyLink (u : Url) : Option LinkClass :=
  if strEndsWith u.netloc "soton.ac.uk" && (u.scheme == "http" || u.scheme == "https") then
    some .internal
  else if u.scheme == "http" || u.scheme == "https" then
    some .external
  else
    none

inductive NormResult where
  | rejected
  | internal (u : Url)
  | external (u : Url)
deriving DecidableEq, Repr

/-- One iteration of the href loop of `external_link_checker.get_links`
(lines 51-63): resolve against the base, drop if the skip test fires,
otherwise classify. -/
def normalizeHref (sd : List String) (su : List Url) (base : Url) (h : Href) :
    NormResult :=
  let full := urljoin base h
  if isSkippedIn sd su full then .rejected
  else
    match classifyLink full with
    | some .internal => .internal full
    | some .external => .external full
    | none => .rejected

/-- Add-if-absent on lists: the membership behaviour of Python's `set.add`. -/
def insertL [DecidableEq α] (a : α) (l : List α) : List α :=
  if a ∈ l then l else a :: l

/-- The href loop of `external_link_checker.get_links`, accumulating the
`internal_links` and `external_links` sets (processed here tail-first; the
source iterates head-first into mutable sets, which observes the same
memberships). -/
def getLinksLoop (sd : List String) (su : List Url) (base : Url) :
    List Href → List Url × List Url
  | [] => ([], [])
  | h :: rest =>
      let acc := getLinksLoop sd su base rest
      match normalizeHref sd su base h with
      | .rejected => acc
      | .internal u => (insertL u acc.1, acc.2)
      | .external u => (acc.1, insertL u acc.2)

/-- `external_link_checker.get_links` (lines 43-66): fetching and parsing the
page is abstracted as `fetched`; the enclosing `try`/`except` returns the
still-empty sets when the fetch raises (the diagnostic print is outside the
model). -/
def get_links (sd : List String) (su : List Url) (base : Url)
    (fetched : Except String (List Href)) : List Url × List Url :=
  match fetched with
  | .error _ => ([], [])
  | .ok hrefs => getLinksLoop sd su base hrefs

/-- The raw-prefix filter of `get-links.py` line 26 and
`get-all-library-links.py` line 25:
`href.startswith(('mailto:', '#', 'javascript:', 'tel:'))`.  An href string
starts with `#` exactly when it is a fragment-only reference, and starts
with `mailto:`/`javascript:`/`tel:` exactly when it parses with that
scheme. -/
def rawHrefSkipTest : Href → Bool
  | .fragmentOnly _ => true
  | .otherScheme s _ => s == "mailto" || s == "javascript" || s == "tel"
  | _ => false

/-- The href loop of `get-links.py.get_links` (lines 24-28): keep every href
that does not carry one of the four raw prefixes, resolved against the page
URL; no scheme check is performed. -/
def getLinksGLLoop (base : Url) : List Href → List Url
  | [] => []
  | h :: rest =>
      if rawHrefSkipTest h then getLinksGLLoop base rest
      else insertL (urljoin base h) (getLinksGLLoop base rest)

/-- `get-links.py.get_links` (lines 15-31): page rendering abstracted as
`fetched`; on a fetch/render error the enclosing `try`/`except` returns the
still-empty link set. -/
def getLinksGL (base : Url) (fetched : Except String (List Href)) : List Url :=
  match fetched with
  | .error _ => []
  | .ok hrefs => getLinksGLLoop base hrefs

/-! ### Validator (`url-checker.py`) -/

/-- What one attempted HTTP request by `aiohttp` can come to: a completed
response (any status code, with a `Content-Type` header value), or one of the
exception classes distinguished by `check_single_url`'s handlers:
`asyncio.TimeoutError`, `aiohttp.ClientError`, or any other exception. -/
inductive NetResult where
  | success (status : Nat) (contentType : String)
  | timeoutErr
  | connError (msg : String)
  | unexpected (msg : String)
deriving DecidableEq, Repr

/-- The `status_code` slot of a result row: an `int` HTTP status or an error
string (the Python tuples hold the union dynamically). -/
inductive Status where
  | code (n : Nat)
  | err (s : String)
deriving DecidableEq, Repr

/-- One result row of `check_single_url`:
`(url, status_code, content_type, parent_url, line_number)`. -/
structure Outcome where
  url : String
  status : Status
  contentType : Option String
  parent : String
  line : Nat
deriving DecidableEq, Repr

/-- The body of `check_single_url` (lines 62-80) given the transport's
result for this attempt.  Every exception raised by the request is caught by
one of the three `except` arms and converted into a returned row, so the
body never raises. -/
def checkBody (tmo : Nat) (r : NetResult) (url parent : String) (line : Nat) :
    Outcome :=
  match r with
  | .success st ct =>
      { url := url, status := .code st, contentType := some ct,
        parent := parent, line := line }
  | .timeoutErr =>
      { url := url,
        status := .err ("Timeout after " ++ toString tmo ++ " seconds"),
        contentType := none, parent := parent, line := line }
  | .connError e =>
      { url := url, status := .err ("Connection error: " ++ e),
        contentType := none, parent := parent, line := line }
  | .unexpected e =>
      { url := url, status := .err ("Unexpected error: " ++ e),
        contentType := none, parent := parent, line := line }

/-- The control flow of tenacity's `@retry` decorator with
`stop=stop_after_attempt(n)`: run the body; a raised exception is retried
while attempts remain, and once the stop condition holds the
`retry_error_callback` result is returned instead.  `att` is the 1-based
attempt number, `rem` the number of retries still permitted; the returned
`Nat` is the number of attempts actually made.  (The backoff waits of
`wait_exponential` only delay the next attempt and are irrelevant to the
returned value.) -/
def tenacityRun (body : Nat → Except String Outcome)
    (fallback : Nat → String → Outcome) : Nat → Nat → Outcome × Nat
  | att, rem =>
      match body att with
      | .ok o => (o, att)
      | .error e =>
          match rem with
          | 0 => (fallback att e, att)
          | r + 1 => tenacityRun body fallback (att + 1) r

/-- `check_single_url` (lines 46-80): the tenacity loop,
`stop_after_attempt(3)` (first attempt plus at most two retries), around a
body that returns on every transport result — the three `except` arms catch
every exception, so the body is always `Except.ok` and the decorator's retry
condition (a raised exception) can never hold.  The fallback is the
`retry_error_callback` of lines 49-55, which would produce the
`'Failed after {n} attempts: {exc}'` row. -/
def checkSingleUrlRun (tmo : Nat) (net : Nat → NetResult)
    (url parent : String) (line : Nat) : Outcome × Nat :=
  tenacityRun (fun att => Except.ok (checkBody tmo (net att) url parent line))
    (fun att e =>
      { url := url,
        status := .err ("Failed after " ++ toString att ++ " attempts: " ++ e),
        contentType := none, parent := parent, line := line })
    1 2

/-- The outcome of `check_single_url`, dropping the attempt count. -/
def checkSingleUrl (tmo : Nat) (net : Nat → NetResult)
    (url parent : String) (line : Nat) : Outcome :=
  (checkSingleUrlRun tmo net url parent line).1

/-- One task construction of `check_urls_batch` (lines 92-97): the row's
first cell is the URL, the second — when present — the parent (else
`"N/A"`), and the passed line number.  (A fully empty row would raise
`IndexError` in the source and is modelled as the empty URL.) -/
def checkRow (tmo : Nat) (net : String → Nat → NetResult) (line : Nat) :
    List String → Outcome
  | [] => checkSingleUrl tmo (net "") "" "N/A" line
  | [u] => checkSingleUrl tmo (net u) u "N/A" line
  | u :: p :: _ => checkSingleUrl tmo (net u) u p line

/-- Map with an explicit running index: `enumMapFrom f n [a, b, ...] =
[f n a, f (n+1) b, ...]`.  This is `enumerate` fused with the map applied to
each `(idx, link)` pair. -/
def enumMapFrom (f : Nat → α → β) : Nat → List α → List β
  | _, [] => []
  | n, a :: as => f n a :: enumMapFrom f (n + 1) as

/-- The batch loop of `check_urls_batch` (lines 82-103), driven by fuel
(one unit per batch; `links.length` units always suffice when the batch size
is positive).  Each batch maps `check_single_url` over
`enumerate(batch)` with line number `i + idx + 2`, i.e. absolute index plus
2; `asyncio.gather` returns the batch's results in task order, and
`all_results.extend` concatenates the batches in order. -/
def checkUrlsBatchAux (tmo : Nat) (net : String → Nat → NetResult) (bs : Nat) :
    Nat → List (List String) → Nat → List Outcome
  | 0, _, _ => []
  | _ + 1, [], _ => []
  | fuel + 1, links@(_ :: _), i =>
      enumMapFrom (fun k row => checkRow tmo net (k + 2) row) i (links.take bs)
        ++ checkUrlsBatchAux tmo net bs fuel (links.drop bs) (i + bs)

/-- `check_urls_batch(links, batch_size)` (default batch size 1000). -/
def checkUrlsBatch (tmo : Nat) (net : String → Nat → NetResult) (bs : Nat)
    (links : List (List String)) : List Outcome :=
  checkUrlsBatchAux tmo net bs links.length links 0

/-- Ordered insertion by the `line` field (insertion after any smaller-or-
equal keys, preserving the relative order of equal keys). -/
def insertByLine (o : Outcome) : List Outcome → List Outcome
  | [] => [o]
  | x :: xs => if x.line ≤ o.line then x :: insertByLine o xs else o :: x :: xs

/-- `results.sort(key=lambda x: x[4])` of `main` (line 134): a stable
comparison sort by line number.  Every stable comparison sort computes the
same list, so the choice of insertion sort here is immaterial. -/
def sortByLine : List Outcome → List Outcome
  | [] => []
  | x :: xs => insertByLine x (sortByLine xs)

/-! ### External-link checking (`external_link_checker.py`) -/

/-- What `session.get` inside `check_link` can come to. -/
inductive FetchResult where
  | ok (status : Nat) (contentType : String)
  | exc (msg : String)
deriving DecidableEq, Repr

/-- `check_link` (lines 24-29): a completed response yields
`(url, response.status, content_type)`; any exception is caught and yields
`(url, 'Error', str(e))`. -/
def check_link (fr : FetchResult) (url : Url) : Url × Status × String :=
  match fr with
  | .ok st ct => (url, .code st, ct)
  | .exc e => (url, .err "Error", e)

/-- The external-check loop of `crawl_and_check_links` (lines 95-103): each
collected `(ext_url, parent_url)` pair is skipped when the skip test fires,
otherwise checked and appended to `results`. -/
def checkExternalLinks (sd : List String) (su : List Url)
    (net : Url → FetchResult) : List (Url × Url) → List (Url × Status × String × Url)
  | [] => []
  | (e, par) :: rest =>
      if isSkippedIn sd su e then checkExternalLinks sd su net rest
      else
        ((check_link (net e) e).1, (check_link (net e) e).2.1,
          (check_link (net e) e).2.2, par) :: checkExternalLinks sd su net rest

/-! ### Crawl loop of `external_link_checker.crawl_and_check_links`
(lines 68-92).

Python's `set.pop()` removes an arbitrary element, and the dict update for
external links iterates a set in unspecified order, so the loop is modelled
as a step relation: any admissible pop and any admissible batch of new
external entries give a step.  Every run of the source program is a path of
this relation. -/

/-- The mutable state of the crawl loop: `visited`, `to_visit`, and the
`all_external_links` dict as an insertion-ordered association list. -/
structure CrawlState where
  visited : Finset Url
  toVisit : Finset Url
  extLinks : List (Url × Url)
deriving DecidableEq

/-- `get_links` of the crawled page `u`, with the page fetch abstracted by
`pages`. -/
def pageLinks (sd : List String) (su : List Url)
    (pages : Url → Except String (List Href)) (u : Url) : List Url × List Url :=
  get_links sd su u (pages u)

/-- One iteration of the `while to_visit and len(visited) < max_pages` loop:
pop some `url`; if it was already visited, or the skip test fires, nothing
else happens; otherwise it is added to `visited`, the page's internal links
not yet visited are merged into `to_visit`, and some admissible batch of its
external links (those not already keys of the dict, in some iteration
order) is appended to `all_external_links` with `url` as parent. -/
inductive CrawlStep (sd : List String) (su : List Url) (maxPages : Nat)
    (pages : Url → Except String (List Href)) : CrawlState → CrawlState → Prop where
  | alreadyVisited (u : Url) (s : CrawlState) :
      s.visited.card < maxPages → u ∈ s.toVisit → u ∈ s.visited →
      CrawlStep sd su maxPages pages s { s with toVisit := s.toVisit.erase u }
  | skipDenied (u : Url) (s : CrawlState) :
      s.visited.card < maxPages → u ∈ s.toVisit → u ∉ s.visited →
      isSkippedIn sd su u = true →
      CrawlStep sd su maxPages pages s { s with toVisit := s.toVisit.erase u }
  | visitPage (u : Url) (s : CrawlState) (newExt : List (Url × Url)) :
      s.visited.card < maxPages → u ∈ s.toVisit → u ∉ s.visited →
      isSkippedIn sd su u = false →
      (∀ p ∈ newExt, p.2 = u ∧ p.1 ∈ (pageLinks sd su pages u).2) →
      CrawlStep sd su maxPages pages s
        { visited := insert u s.visited,
          toVisit := (s.toVisit.erase u) ∪
            ((pageLinks sd su pages u).1.filter
              (fun v => v ∉ insert u s.visited)).toFinset,
          extLinks := s.extLinks ++ newExt }

/-- Initial state of `crawl_and_check_links`: `visited = set()`,
`to_visit = {start_url}`, empty dict. -/
def crawlInit (start : Url) : CrawlState :=
  { visited := ∅, toVisit := {start}, extLinks := [] }

/-- The states some run of the crawl loop can reach from the initial
state. -/
def CrawlReachable (sd : List String) (su : List Url) (maxPages : Nat)
    (pages : Url → Except String (List Href)) (start : Url)
    (s : CrawlState) : Prop :=
  Relation.ReflTransGen (CrawlStep sd su maxPages pages) (crawlInit start) s

/-! ### BFS crawler of `get-all-library-links.crawl_site` (lines 38-54).

The frontier is a `deque` of `(url, depth)` pairs — an honest list, so the
loop is deterministic once the per-page link sets are given an iteration
order; `pages u` stands for the set returned by
`get_links_with_playwright(u)` in one admissible iteration order. -/

/-- The mutable state of `crawl_site`: `visited` (a set, modelled as a
duplicate-free list), the `deque` of `(url, depth)` pairs, and the
accumulated `all_links` set. -/
structure SiteState where
  visited : List Url
  queue : List (Url × Nat)
  allLinks : List Url
deriving DecidableEq, Repr

/-- One iteration of the `while queue` loop of `crawl_site`: pop the head;
a too-deep or already-visited entry is dropped; otherwise the URL is added
to `visited` and to `all_links`, and each of its page links not yet visited
is appended to the queue at depth + 1 — the guard consults only `visited`,
never the queue itself.  Returns `none` when the queue is empty (loop
exit). -/
def siteStep (pages : Url → List Url) (maxDepth : Nat) (s : SiteState) :
    Option SiteState :=
  match s.queue with
  | [] => none
  | (u, d) :: rest =>
      if maxDepth < d ∨ u ∈ s.visited then some { s with queue := rest }
      else
        let vis := insertL u s.visited
        some { visited := vis,
               queue := rest ++
                 ((pages u).filter (fun l => l ∉ vis)).map (fun l => (l, d + 1)),
               allLinks := (pages u).foldl (fun acc l => insertL l acc) s.allLinks }

/-- Run `n` iterations of the `crawl_site` loop (stopping early when the
queue empties). -/
def siteSteps (pages : Url → List Url) (maxDepth : Nat) : Nat → SiteState → SiteState
  | 0, s => s
  | n + 1, s =>
      match siteStep pages maxDepth s with
      | none => s
      | some s2 => siteSteps pages maxDepth n s2

/-- Initial state of `crawl_site start_url`. -/
def siteInit (start : Url) : SiteState :=
  { visited := [], queue := [(start, 0)], allLinks := [] }

/-! ### Helper lemmas -/

/-- `startswith` on strings, via `prefAux`. -/
def strStartsWith (s pre : String) : Bool :=
  prefAux pre.data s.data

theorem prefAux_append (l r : List Char) : prefAux l (l ++ r) = true := by
  induction l with
  | nil => rfl
  | cons a as ih => simp [prefAux, ih]

theorem containsAux_append (needle : List Char) :
    ∀ t : List Char, containsAux needle (t ++ needle) = true := by
  intro t
  induction t with
  | nil =>
      cases needle with
      | nil => rfl
      | cons c cs =>
          have h := prefAux_append (c :: cs) []
          rw [List.append_nil] at h
          simp [containsAux, h]
  | cons c cs ih => simp [containsAux, ih]

theorem strContains_of_suffix (hay needle : String)
    (h : needle.data <:+ hay.data) : strContains hay needle = true := by
  obtain ⟨t, ht⟩ := h
  unfold strContains
  rw [← ht]
  exact containsAux_append needle.data t

theorem mem_insertL [DecidableEq α] (a b : α) (l : List α) :
    a ∈ insertL b l ↔ a = b ∨ a ∈ l := by
  unfold insertL
  split
  · constructor
    · exact fun h => Or.inr h
    · rintro (rfl | h) <;> assumption
  · simp

theorem insertL_nodup [DecidableEq α] (a : α) (l : List α) (h : l.Nodup) :
    (insertL a l).Nodup := by
  unfold insertL
  split
  · exact h
  · exact List.Nodup.cons (by assumption) h

theorem checkSingleUrlRun_eq (tmo : Nat) (net : Nat → NetResult)
    (u p : String) (l : Nat) :
    checkSingleUrlRun tmo net u p l = (checkBody tmo (net 1) u p l, 1) := by
  unfold checkSingleUrlRun tenacityRun
  rfl

theorem checkBody_parent (tmo : Nat) (r : NetResult) (u p : String) (l : Nat) :
    (checkBody tmo r u p l).parent = p := by
  cases r <;> rfl

theorem checkBody_line (tmo : Nat) (r : NetResult) (u p : String) (l : Nat) :
    (checkBody tmo r u p l).line = l := by
  cases r <;> rfl

theorem checkRow_line (tmo : Nat) (net : String → Nat → NetResult) (l : Nat)
    (row : List String) : (checkRow tmo net l row).line = l := by
  cases row with
  | nil => simp [checkRow, checkSingleUrl, checkSingleUrlRun_eq, checkBody_line]
  | cons u rest =>
      cases rest <;>
        simp [checkRow, checkSingleUrl, checkSingleUrlRun_eq, checkBody_line]

theorem checkRow_parent_single (tmo : Nat) (net : String → Nat → NetResult)
    (l : Nat) (u : String) :
    (checkRow tmo net l [u]).parent = "N/A" := by
  simp [checkRow, checkSingleUrl, checkSingleUrlRun_eq, checkBody_parent]

theorem enumMapFrom_length (f : Nat → α → β) :
    ∀ (l : List α) (n : Nat), (enumMapFrom f n l).length = l.length := by
  intro l
  induction l with
  | nil => intro n; rfl
  | cons a as ih => intro n; simp [enumMapFrom, ih]

theorem enumMapFrom_append (f : Nat → α → β) :
    ∀ (l₁ l₂ : List α) (n : Nat),
      enumMapFrom f n (l₁ ++ l₂) =
        enumMapFrom f n l₁ ++ enumMapFrom f (n + l₁.length) l₂ := by
  intro l₁
  induction l₁ with
  | nil => intro l₂ n; simp [enumMapFrom]
  | cons a as ih =>
      intro l₂ n
      have h1 : n + (a :: as).length = n + 1 + as.length := by
        simp only [List.length_cons]
        omega
      calc enumMapFrom f n ((a :: as) ++ l₂)
          = f n a :: enumMapFrom f (n + 1) (as ++ l₂) := rfl
        _ = f n a :: (enumMapFrom f (n + 1) as ++ enumMapFrom f (n + 1 + as.length) l₂) := by
              rw [ih]
        _ = enumMapFrom f n (a :: as) ++ enumMapFrom f (n + (a :: as).length) l₂ := by
              rw [h1]
              rfl

theorem enumMapFrom_get (f : Nat → α → β) :
    ∀ (l : List α) (n k : Nat) (hk : k < (enumMapFrom f n l).length)
      (hk2 : k < l.length),
      (enumMapFrom f n l).get ⟨k, hk⟩ = f (n + k) (l.get ⟨k, hk2⟩) := by
  intro l
  induction l with
  | nil => intro n k hk hk2; simp at hk2
  | cons a as ih =>
      intro n k hk hk2
      cases k with
      | zero => simp [enumMapFrom]
      | succ j =>
          have hj : j < (enumMapFrom f (n + 1) as).length := by
            simpa [enumMapFrom, Nat.succ_lt_succ_iff] using hk
          have hj2 : j < as.length := by simpa [Nat.succ_lt_succ_iff] using hk2
          have heq := ih (n + 1) j hj hj2
          simp only [enumMapFrom, List.get_cons_succ]
          rw [heq]
          have harith : n + 1 + j = n + (j + 1) := by omega
          rw [harith]

theorem checkUrlsBatchAux_eq (tmo : Nat) (net : String → Nat → NetResult)
    (bs : Nat) (hbs : 0 < bs) :
    ∀ (fuel : Nat) (links : List (List String)) (i : Nat),
      links.length ≤ fuel →
      checkUrlsBatchAux tmo net bs fuel links i =
        enumMapFrom (fun k row => checkRow tmo net (k + 2) row) i links := by
  intro fuel
  induction fuel with
  | zero =>
      intro links i hlen
      have : links = [] := List.eq_nil_of_length_eq_zero (Nat.le_zero.mp hlen)
      subst this
      rfl
  | succ f ih =>
      intro links i hlen
      cases links with
      | nil => rfl
      | cons r rs =>
          rw [checkUrlsBatchAux]
          have hdrop : ((r :: rs).drop bs).length ≤ f := by
            rw [List.length_drop]
            have h1 : (r :: rs).length ≤ f + 1 := hlen
            omega
          rw [ih ((r :: rs).drop bs) (i + bs) hdrop]
          conv_rhs => rw [← List.take_append_drop bs (r :: rs)]
          rw [enumMapFrom_append]
          by_cases hle : bs ≤ (r :: rs).length
          · have htake : ((r :: rs).take bs).length = bs := by
              rw [List.length_take]
              exact Nat.min_eq_left hle
            rw [htake]
          · have hnil : (r :: rs).drop bs = [] :=
              List.drop_eq_nil_of_le (Nat.le_of_not_le hle)
            rw [hnil]
            simp [enumMapFrom]

theorem checkUrlsBatch_eq (tmo : Nat) (net : String → Nat → NetResult)
    (bs : Nat) (hbs : 0 < bs) (links : List (List String)) :
    checkUrlsBatch tmo net bs links =
      enumMapFrom (fun k row => checkRow tmo net (k + 2) row) 0 links :=
  checkUrlsBatchAux_eq tmo net bs hbs links.length links 0 (Nat.le_refl _)

theorem le_line_of_mem_enum (tmo : Nat) (net : String → Nat → NetResult) :
    ∀ (links : List (List String)) (i : Nat) (o : Outcome),
      o ∈ enumMapFrom (fun k row => checkRow tmo net (k + 2) row) i links →
      i + 2 ≤ o.line := by
  intro links
  induction links with
  | nil => intro i o h; simp [enumMapFrom] at h
  | cons r rs ih =>
      intro i o h
      simp only [enumMapFrom, List.mem_cons] at h
      rcases h with rfl | h
      · rw [checkRow_line]
      · have := ih (i + 1) o h
        omega

theorem pairwise_enum_lines (tmo : Nat) (net : String → Nat → NetResult) :
    ∀ (links : List (List String)) (i : Nat),
      (enumMapFrom (fun k row => checkRow tmo net (k + 2) row) i links).Pairwise
        (fun a b => a.line < b.line) := by
  intro links
  induction links with
  | nil => intro i; exact List.Pairwise.nil
  | cons r rs ih =>
      intro i
      refine List.Pairwise.cons ?_ (ih (i + 1))
      intro o ho
      have h1 := le_line_of_mem_enum tmo net rs (i + 1) o ho
      rw [checkRow_line]
      omega

theorem insertByLine_of_lt (o : Outcome) (l : List Outcome)
    (h : ∀ y ∈ l, o.line < y.line) : insertByLine o l = o :: l := by
  cases l with
  | nil => rfl
  | cons x xs =>
      have hx : o.line < x.line := h x (by simp)
      have : ¬ x.line ≤ o.line := by omega
      simp [insertByLine, this]

theorem sortByLine_sorted_id :
    ∀ l : List Outcome, l.Pairwise (fun a b => a.line < b.line) →
      sortByLine l = l := by
  intro l
  induction l with
  | nil => intro _; rfl
  | cons x xs ih =>
      intro h
      rw [List.pairwise_cons] at h
      rw [sortByLine, ih h.2]
      exact insertByLine_of_lt x xs h.1

theorem check_link_fst (fr : FetchResult) (u : Url) : (check_link fr u).1 = u := by
  cases fr <;> rfl

theorem normalizeHref_internal (sd : List String) (su : List Url) (b : Url)
    (h : Href) (u : Url) (hn : normalizeHref sd su b h = .internal u) :
    u = urljoin b h ∧ isSkippedIn sd su u = false ∧
      classifyLink u = some .internal := by
  simp only [normalizeHref] at hn
  split at hn
  · exact absurd hn (by simp)
  · next hs =>
      split at hn
      · next hcl =>
          cases hn
          exact ⟨rfl, Bool.not_eq_true _ ▸ Bool.of_not_eq_true hs, hcl⟩
      · exact absurd hn (by simp)
      · exact absurd hn (by simp)

theorem normalizeHref_external (sd : List String) (su : List Url) (b : Url)
    (h : Href) (u : Url) (hn : normalizeHref sd su b h = .external u) :
    u = urljoin b h ∧ isSkippedIn sd su u = false ∧
      classifyLink u = some .external := by
  simp only [normalizeHref] at hn
  split at hn
  · exact absurd hn (by simp)
  · next hs =>
      split at hn
      · exact absurd hn (by simp)
      · next hcl =>
          cases hn
          exact ⟨rfl, Bool.not_eq_true _ ▸ Bool.of_not_eq_true hs, hcl⟩
      · exact absurd hn (by simp)

theorem mem_getLinksLoop_not_skipped (sd : List String) (su : List Url)
    (b : Url) :
    ∀ (hrefs : List Href) (u : Url),
      (u ∈ (getLinksLoop sd su b hrefs).1 → isSkippedIn sd su u = false) ∧
      (u ∈ (getLinksLoop sd su b hrefs).2 → isSkippedIn sd su u = false) := by
  intro hrefs
  induction hrefs with
  | nil => intro u; simp [getLinksLoop]
  | cons h rest ih =>
      intro u
      cases hn : normalizeHref sd su b h with
      | rejected => simpa [getLinksLoop, hn] using ih u
      | internal v =>
          constructor
          · intro hu
            simp only [getLinksLoop, hn, mem_insertL] at hu
            rcases hu with rfl | hu
            · exact (normalizeHref_internal sd su b h u hn).2.1
            · exact (ih u).1 hu
          · intro hu
            simp only [getLinksLoop, hn] at hu
            exact (ih u).2 hu
      | external v =>
          constructor
          · intro hu
            simp only [getLinksLoop, hn] at hu
            exact (ih u).1 hu
          · intro hu
            simp only [getLinksLoop, hn, mem_insertL] at hu
            rcases hu with rfl | hu
            · exact (normalizeHref_external sd su b h u hn).2.1
            · exact (ih u).2 hu

theorem mem_checkExternalLinks (sd : List String) (su : List Url)
    (net : Url → FetchResult) :
    ∀ (ext : List (Url × Url)) (r : Url × Status × String × Url),
      r ∈ checkExternalLinks sd su net ext → isSkippedIn sd su r.1 = false := by
  intro ext
  induction ext with
  | nil => intro r h; simp [checkExternalLinks] at h
  | cons p rest ih =>
      intro r h
      obtain ⟨e, par⟩ := p
      by_cases hs : isSkippedIn sd su e = true
      · rw [checkExternalLinks, if_pos hs] at h
        exact ih r h
      · rw [checkExternalLinks, if_neg hs] at h
        rcases List.mem_cons.mp h with rfl | h2
        · rw [check_link_fst]
          exact Bool.of_not_eq_true hs
        · exact ih r h2

/-- Characterization of one crawl step: either the popped URL was dropped
(state unchanged except a smaller `to_visit`), or a fresh, non-skipped URL
was visited. -/
theorem crawlStep_cases (sd : List String) (su : List Url) (mp : Nat)
    (pages : Url → Except String (List Href)) (s s2 : CrawlState)
    (h : CrawlStep sd su mp pages s s2) :
    (s2.visited = s.visited ∧ s2.extLinks = s.extLinks ∧
      s2.toVisit ⊆ s.toVisit) ∨
    (∃ u newExt, u ∉ s.visited ∧ isSkippedIn sd su u = false ∧
      (∀ p ∈ newExt, p.2 = u ∧ p.1 ∈ (pageLinks sd su pages u).2) ∧
      s2.visited = insert u s.visited ∧
      s2.extLinks = s.extLinks ++ newExt ∧
      s2.toVisit = (s.toVisit.erase u) ∪
        ((pageLinks sd su pages u).1.filter
          (fun v => v ∉ insert u s.visited)).toFinset) := by
  cases h with
  | alreadyVisited u s0 hc htv hv =>
      exact Or.inl ⟨rfl, rfl, Finset.erase_subset u _⟩
  | skipDenied u s0 hc htv hv hsk =>
      exact Or.inl ⟨rfl, rfl, Finset.erase_subset u _⟩
  | visitPage u s0 newExt hc htv hnv hsk hext =>
      exact Or.inr ⟨u, newExt, hnv, hsk, hext, rfl, rfl, rfl⟩

theorem crawlStep_visited (sd : List String) (su : List Url) (mp : Nat)
    (pages : Url → Except String (List Href)) (s s2 : CrawlState)
    (h : CrawlStep sd su mp pages s s2) :
    s2.visited = s.visited ∨
      ∃ u, u ∉ s.visited ∧ s2.visited = insert u s.visited := by
  rcases crawlStep_cases sd su mp pages s s2 h with ⟨hv, _, _⟩ | ⟨u, _, hnv, _, _, hv, _, _⟩
  · exact Or.inl hv
  · exact Or.inr ⟨u, hnv, hv⟩

theorem crawlReachable_visited_not_skipped (sd : List String) (su : List Url)
    (mp : Nat) (pages : Url → Except String (List Href)) (start : Url)
    (s : CrawlState) (h : CrawlReachable sd su mp pages start s) :
    ∀ u ∈ s.visited, isSkippedIn sd su u = false := by
  induction h with
  | refl => intro u hu; simp [crawlInit] at hu
  | @tail mid fin h1 hstep ih =>
      intro u hu
      rcases crawlStep_cases sd su mp pages mid fin hstep with
        ⟨hv, _, _⟩ | ⟨v, newExt, hnv, hsk, hext, hv, _, _⟩
      · rw [hv] at hu
        exact ih u hu
      · rw [hv] at hu
        rcases Finset.mem_insert.mp hu with rfl | hu2
        · exact hsk
        · exact ih u hu2

theorem crawlReachable_disjoint (sd : List String) (su : List Url) (mp : Nat)
    (pages : Url → Except String (List Href)) (start : Url) (s : CrawlState)
    (h : CrawlReachable sd su mp pages start s) :
    Disjoint s.visited s.toVisit := by
  induction h with
  | refl => simp [crawlInit]
  | @tail mid fin h1 hstep ih =>
      rcases crawlStep_cases sd su mp pages mid fin hstep with
        ⟨hv, _, ht⟩ | ⟨v, newExt, hnv, hsk, hext, hv, _, ht⟩
      · rw [hv]
        exact Finset.disjoint_of_subset_right ht ih
      · rw [hv, ht, Finset.disjoint_left]
        intro x hx hx2
        simp only [Finset.mem_union, Finset.mem_erase, List.mem_toFinset,
          List.mem_filter, decide_eq_true_eq] at hx2
        rcases Finset.mem_insert.mp hx with rfl | hxV
        · rcases hx2 with ⟨hne, _⟩ | ⟨_, hni⟩
          · exact hne rfl
          · exact hni (Finset.mem_insert_self x mid.visited)
        · rcases hx2 with ⟨_, hxT⟩ | ⟨_, hni⟩
          · exact (Finset.disjoint_left.mp ih hxV) hxT
          · exact hni (Finset.mem_insert_of_mem hxV)

theorem crawlReachable_extLinks_not_skipped (sd : List String) (su : List Url)
    (mp : Nat) (pages : Url → Except String (List Href)) (start : Url)
    (s : CrawlState) (h : CrawlReachable sd su mp pages start s) :
    ∀ p ∈ s.extLinks, isSkippedIn sd su p.1 = false := by
  induction h with
  | refl => intro p hp; simp [crawlInit] at hp
  | @tail mid fin h1 hstep ih =>
      intro p hp
      rcases crawlStep_cases sd su mp pages mid fin hstep with
        ⟨_, he, _⟩ | ⟨v, newExt, hnv, hsk, hext, _, he, _⟩
      · rw [he] at hp
        exact ih p hp
      · rw [he] at hp
        rcases List.mem_append.mp hp with hp1 | hp2
        · exact ih p hp1
        · have h2 := (hext p hp2).2
          unfold pageLinks get_links at h2
          cases hpg : pages v with
          | error e => rw [hpg] at h2; simp at h2
          | ok hrefs =>
              rw [hpg] at h2
              exact (mem_getLinksLoop_not_skipped sd su v hrefs p.1).2 h2

theorem siteStep_visited (pages : Url → List Url) (maxDepth : Nat)
    (s s2 : SiteState) (h : siteStep pages maxDepth s = some s2) :
    s2.visited = s.visited ∨
      ∃ u, u ∉ s.visited ∧ s2.visited = insertL u s.visited := by
  unfold siteStep at h
  cases hq : s.queue with
  | nil => rw [hq] at h; exact absurd h (by simp)
  | cons ud rest =>
      obtain ⟨u, d⟩ := ud
      rw [hq] at h
      dsimp only at h
      by_cases hc : maxDepth < d ∨ u ∈ s.visited
      · rw [if_pos hc] at h
        cases Option.some.inj h
        exact Or.inl rfl
      · rw [if_neg hc] at h
        cases Option.some.inj h
        exact Or.inr ⟨u, (not_or.mp hc).2, rfl⟩

theorem url_eta_netloc (u : Url) : { u with netloc := u.netloc } = u := by
  cases u
  rfl

theorem urljoin_reabs (b : Url) (h : Href) :
    urljoin b (.absolute (urljoin b h)) = urljoin b h := by
  cases h with
  | absolute u =>
      by_cases h1 : (u.scheme == b.scheme && u.netloc == "") = true
      · by_cases hb : b.netloc = ""
        · simp only [urljoin, h1, if_pos]
          rw [Bool.and_eq_true, beq_iff_eq, beq_iff_eq] at h1
          simp [h1.1, hb, url_eta_netloc]
        · rw [Bool.and_eq_true, beq_iff_eq, beq_iff_eq] at h1
          simp [urljoin, h1.1, h1.2, hb]
      · simp [urljoin, h1]
  | rootPath p q =>
      by_cases hb : b.netloc = ""
      · simp [urljoin, hb, url_eta_netloc]
      · simp [urljoin, hb]
  | fragmentOnly f =>
      by_cases hb : b.netloc = ""
      · simp [urljoin, hb, url_eta_netloc]
      · simp [urljoin, hb]
  | otherScheme sc rest =>
      by_cases hs : sc = b.scheme
      · by_cases hb : b.netloc = ""
        · simp [urljoin, hs, hb, url_eta_netloc]
        · simp [urljoin, hs, hb]
      · simp [urljoin, hs]

theorem strStartsWith_append (pre rest : String) :
    strStartsWith (pre ++ rest) pre = true := by
  unfold strStartsWith
  rw [String.data_append]
  exact prefAux_append pre.data rest.data

/-! ### Concrete instances used by the claim theorems -/

/-- A transport that fails with a connection error on attempts 1 and 2 and
would succeed with HTTP 200 on attempt 3. -/
def c1Transport : Nat → NetResult := fun att =>
  if att ≤ 2 then .connError "Connection reset by peer"
  else .success 200 "text/html"

/-- A transport for which every request completes with HTTP 200. -/
def netAll200 : String → Nat → NetResult := fun _ _ => .success 200 "text/html"

/-- The seed page of end-to-end scenario 1, on the root domain. -/
def scnBase : Url :=
  { scheme := "http", netloc := "www.soton.ac.uk", path := "/page",
    query := "", fragment := "" }

/-- The external URL of scenario 1. -/
def scnExt : Url :=
  { scheme := "http", netloc := "external.test", path := "/x",
    query := "", fragment := "" }

/-- The hrefs of scenario 1. -/
def scnHrefs : List Href :=
  [.rootPath "/a" "", .fragmentOnly "frag",
   .otherScheme "javascript" "void(0)", .absolute scnExt]

/-- `/a` resolved against the seed page. -/
def scnA : Url :=
  { scheme := "http", netloc := "www.soton.ac.uk", path := "/a",
    query := "", fragment := "" }

/-- `#frag` resolved against the seed page. -/
def scnFrag : Url :=
  { scheme := "http", netloc := "www.soton.ac.uk", path := "/page",
    query := "", fragment := "frag" }

/-- A host that merely contains the denied domain `facebook.com` as a
substring, not as a suffix. -/
def evilHost : Url :=
  { scheme := "http", netloc := "facebook.com.evil.test", path := "/",
    query := "", fragment := "" }

/-- A host with the denied domain `facebook.com` as a proper suffix. -/
def fbSub : Url :=
  { scheme := "http", netloc := "x.facebook.com", path := "/",
    query := "", fragment := "" }

/-- A host for which `endswith('soton.ac.uk')` holds without the host being
equal to or a subdomain of `soton.ac.uk`. -/
def notSotonHost : Url :=
  { scheme := "http", netloc := "notsoton.ac.uk", path := "/",
    query := "", fragment := "" }

/-- Three pages of one site for the `crawl_site` counterexample. -/
def siteS : Url :=
  { scheme := "https", netloc := "library.soton.ac.uk", path := "/",
    query := "", fragment := "" }

def siteA : Url :=
  { scheme := "https", netloc := "library.soton.ac.uk", path := "/a",
    query := "", fragment := "" }

def siteB : Url :=
  { scheme := "https", netloc := "library.soton.ac.uk", path := "/b",
    query := "", fragment := "" }

/-- The link structure: the start page links to `/a` and `/b`, and `/a`
links to `/b` (one admissible iteration order of the per-page link sets). -/
def sitePages : Url → List Url := fun u =>
  if u = siteS then [siteA, siteB] else if u = siteA then [siteB] else []

/-- The state of `crawl_site` after visiting the start page. -/
def siteState1 : SiteState :=
  { visited := [siteS], queue := [(siteA, 1), (siteB, 1)],
    allLinks := [siteB, siteA] }

/-! ### Claim theorems -/

/-- Claim C1 (code bug): the spec and the script's own docstring promise
retry-with-backoff for transient failures — a transport failing twice with a
connection error and then succeeding should yield the success outcome after
exactly 3 attempts.  In the code, `check_single_url` catches every exception
inside its body and returns an error row instead, so tenacity's retry
condition (a raised exception) can never hold: every check makes exactly one
attempt, and the two-connection-errors-then-success transport yields the
connection-error outcome after 1 attempt. -/
theorem c1_retry_never_fires :
    (∀ (tmo : Nat) (net : Nat → NetResult) (u p : String) (l : Nat),
      checkSingleUrlRun tmo net u p l = (checkBody tmo (net 1) u p l, 1)) ∧
    checkSingleUrlRun 15 c1Transport "https://x.test/" "https://p.test/" 2 =
      ({ url := "https://x.test/",
         status := .err "Connection error: Connection reset by peer",
         contentType := none, parent := "https://p.test/", line := 2 }, 1) := by
  constructor
  · exact checkSingleUrlRun_eq
  · rfl

/-- Claim C2 (amended): for every input of N records, the sorted output of
the batch orchestrator has exactly N outcomes, is the per-record map of
`check_single_url` in input order (one outcome per record, no drops, no
duplicates), and the i-th outcome's recorded line number is `i + 2` — the
CSV line after the header row — not `i` as the claim states. -/
theorem c2_batch_order :
    ∀ (tmo : Nat) (net : String → Nat → NetResult) (rows : List (List String)),
      (sortByLine (checkUrlsBatch tmo net 1000 rows)).length = rows.length ∧
      sortByLine (checkUrlsBatch tmo net 1000 rows) =
        enumMapFrom (fun k row => checkRow tmo net (k + 2) row) 0 rows ∧
      ∀ (k : Nat) (hk : k < (sortByLine (checkUrlsBatch tmo net 1000 rows)).length),
        ((sortByLine (checkUrlsBatch tmo net 1000 rows)).get ⟨k, hk⟩).line = k + 2 := by
  intro tmo net rows
  have heq := checkUrlsBatch_eq tmo net 1000 (by decide) rows
  have hsorted : sortByLine (checkUrlsBatch tmo net 1000 rows) =
      checkUrlsBatch tmo net 1000 rows := by
    rw [heq]
    exact sortByLine_sorted_id _ (pairwise_enum_lines tmo net rows 0)
  have h3 : sortByLine (checkUrlsBatch tmo net 1000 rows) =
      enumMapFrom (fun k row => checkRow tmo net (k + 2) row) 0 rows := by
    rw [hsorted, heq]
  refine ⟨?_, h3, ?_⟩
  · rw [h3, enumMapFrom_length]
  · intro k hk
    have hk2 : k < rows.length := by
      rw [h3, enumMapFrom_length] at hk
      exact hk
    rw [List.get_of_eq h3 ⟨k, hk⟩]
    rw [enumMapFrom_get _ rows 0 k _ hk2]
    rw [checkRow_line]
    omega

/-- The two-row input used by the C2 witness. -/
def c2RowsW : List (List String) :=
  [["http://a.test/", "http://parent.test/"], ["http://b.test/"]]

theorem c2_len_w :
    0 < (sortByLine (checkUrlsBatch 15 netAll200 1000 c2RowsW)).length := by
  decide

/-- Witness for C2: two rows checked against an all-200 transport; the first
outcome carries line number 2. -/
theorem c2_batch_order_witness :
    ((sortByLine (checkUrlsBatch 15 netAll200 1000 c2RowsW)).get
      ⟨0, c2_len_w⟩).line = 0 + 2 :=
  (c2_batch_order 15 netAll200 c2RowsW).2.2 0 c2_len_w

/-- Counterexample for C2 as stated: with a single input record, the
0-th outcome's recorded input order is 2, not 0. -/
theorem c2_counterexample :
    ¬ ∀ (k : Nat) (hk : k < (sortByLine (checkUrlsBatch 15 netAll200 1000
          [["http://a.test/"]])).length),
        ((sortByLine (checkUrlsBatch 15 netAll200 1000
          [["http://a.test/"]])).get ⟨k, hk⟩).line = k := by
  intro hcl
  have h0 := hcl 0 (by decide)
  exact absurd h0 (by decide)

/-- Claim C8 (confirmed): on a fetch/render error both extractors return the
empty link set — the exception is caught inside `get_links` and never
propagates, so one unreachable page cannot abort the crawl. -/
theorem c8_soft_fail :
    (∀ (sd : List String) (su : List Url) (b : Url) (e : String),
        get_links sd su b (.error e) = ([], [])) ∧
    (∀ (b : Url) (e : String), getLinksGL b (.error e) = []) :=
  ⟨fun _ _ _ _ => rfl, fun _ _ => rfl⟩

/-- Claim C10 (confirmed): a record whose row holds only a URL gets parent
`"N/A"`, and the record at zero-based position k is reported with line
number `k + 2` (the CSV line after the header row). -/
theorem c10_na_parent_and_line :
    ∀ (tmo : Nat) (net : String → Nat → NetResult) (rows : List (List String))
      (k : Nat) (hk : k < rows.length) (u : String),
      rows.get ⟨k, hk⟩ = [u] →
      ∃ hk2 : k < (checkUrlsBatch tmo net 1000 rows).length,
        ((checkUrlsBatch tmo net 1000 rows).get ⟨k, hk2⟩).parent = "N/A" ∧
        ((checkUrlsBatch tmo net 1000 rows).get ⟨k, hk2⟩).line = k + 2 := by
  intro tmo net rows k hk u hrow
  have heq := checkUrlsBatch_eq tmo net 1000 (by decide) rows
  have hk2 : k < (checkUrlsBatch tmo net 1000 rows).length := by
    rw [heq, enumMapFrom_length]
    exact hk
  refine ⟨hk2, ?_, ?_⟩
  · rw [List.get_of_eq heq ⟨k, hk2⟩]
    rw [enumMapFrom_get _ rows 0 k _ hk]
    rw [hrow, checkRow_parent_single]
  · rw [List.get_of_eq heq ⟨k, hk2⟩]
    rw [enumMapFrom_get _ rows 0 k _ hk]
    rw [checkRow_line]
    omega

theorem c10_len_w :
    0 < (checkUrlsBatch 15 netAll200 1000 [["http://b.test/"]]).length := by
  decide

/-- Witness for C10: a one-cell row produces parent `"N/A"` and line 2. -/
theorem c10_witness :
    ((checkUrlsBatch 15 netAll200 1000 [["http://b.test/"]]).get
      ⟨0, c10_len_w⟩).parent = "N/A" ∧
    ((checkUrlsBatch 15 netAll200 1000 [["http://b.test/"]]).get
      ⟨0, c10_len_w⟩).line = 0 + 2 := by
  obtain ⟨hk2, h1, h2⟩ :=
    c10_na_parent_and_line 15 netAll200 [["http://b.test/"]] 0 (by decide)
      "http://b.test/" rfl
  exact ⟨h1, h2⟩

/-- Claim C3 (amended): domain denial is decided by a substring match of the
denied domain against the URL's host (Python's `in`), not a suffix match; a
suffix match is a special case, so every suffix-matched host and every
exact-match URL is still denied, and no denied URL ever appears in the
frontier's visited set, in the collected external-link work set, or in the
checked results. -/
theorem c3_skip_policy :
    (∀ (u : Url), ∀ d ∈ SKIP_DOMAINS, d.data <:+ u.netloc.data →
        isSkippedUrl u = true) ∧
    (∀ u : Url, u ∈ SKIP_URLS → isSkippedUrl u = true) ∧
    (∀ (maxPages : Nat) (pages : Url → Except String (List Href))
        (start : Url) (s : CrawlState),
        CrawlReachable SKIP_DOMAINS SKIP_URLS maxPages pages start s →
        (∀ u ∈ s.visited, isSkippedUrl u = false) ∧
        (∀ p ∈ s.extLinks, isSkippedUrl p.1 = false)) ∧
    (∀ (net : Url → FetchResult) (ext : List (Url × Url))
        (r : Url × Status × String × Url),
        r ∈ checkExternalLinks SKIP_DOMAINS SKIP_URLS net ext →
        isSkippedUrl r.1 = false) := by
  refine ⟨?_, ?_, ?_, ?_⟩
  · intro u d hd hsuf
    unfold isSkippedUrl isSkippedIn
    rw [Bool.or_eq_true]
    exact Or.inl (List.any_eq_true.mpr ⟨d, hd, strContains_of_suffix u.netloc d hsuf⟩)
  · intro u hu
    unfold isSkippedUrl isSkippedIn
    rw [Bool.or_eq_true]
    exact Or.inr (List.elem_iff.mpr hu)
  · intro maxPages pages start s h
    exact ⟨crawlReachable_visited_not_skipped SKIP_DOMAINS SKIP_URLS maxPages
        pages start s h,
      crawlReachable_extLinks_not_skipped SKIP_DOMAINS SKIP_URLS maxPages
        pages start s h⟩
  · intro net ext r hr
    exact mem_checkExternalLinks SKIP_DOMAINS SKIP_URLS net ext r hr

/-- Witness for C3: a suffix-matched host is denied; the page visited by a
one-step crawl is not denied; a checked result for a clean URL is not
denied. -/
theorem c3_skip_policy_witness :
    isSkippedUrl fbSub = true ∧
    isSkippedUrl scnBase = false ∧
    isSkippedUrl
      ((scnExt, Status.code 200, "text/html", scnBase) :
        Url × Status × String × Url).1 = false := by
  refine ⟨?_, ?_, ?_⟩
  · exact c3_skip_policy.1 fbSub "facebook.com" (by decide) (by decide)
  · have hstep := @CrawlStep.visitPage SKIP_DOMAINS SKIP_URLS 100
      (fun _ => Except.ok []) scnBase (crawlInit scnBase) []
      (by simp [crawlInit]) (by simp [crawlInit]) (by simp [crawlInit])
      (by decide) (by simp)
    have hreach := Relation.ReflTransGen.single hstep
    exact (c3_skip_policy.2.2.1 100 (fun _ => Except.ok []) scnBase _ hreach).1
      scnBase (Finset.mem_insert_self _ _)
  · exact c3_skip_policy.2.2.2 (fun _ => .ok 200 "text/html")
      [(scnExt, scnBase)] (scnExt, Status.code 200, "text/html", scnBase)
      (by decide)

/-- Counterexample for C3 as stated: `facebook.com.evil.test` is denied by
the code although no denied domain is a suffix of it and it is not in the
denied-URL set — denial is not decided by suffix matching. -/
theorem c3_counterexample :
    isSkippedUrl evilHost = true ∧
    SKIP_DOMAINS.all (fun d => !(d.data.isSuffixOf evilHost.netloc.data)) = true ∧
    SKIP_URLS.contains evilHost = false := by
  decide

/-- Claim C4 (amended): the `external_link_checker` crawl keeps
`visited ∩ pending = ∅` and each step adds at most one URL to `visited`,
only when not already there (so no URL enters `visited` twice).  The
`crawl_site` loop of `get-all-library-links.py` also adds a URL to `visited`
only when not already there, but its deque guard consults only `visited`:
a link already pending is re-queued (see the counterexample). -/
theorem c4_frontier :
    (∀ (sd : List String) (su : List Url) (mp : Nat)
        (pages : Url → Except String (List Href)) (start : Url) (s : CrawlState),
        CrawlReachable sd su mp pages start s → Disjoint s.visited s.toVisit) ∧
    (∀ (sd : List String) (su : List Url) (mp : Nat)
        (pages : Url → Except String (List Href)) (s s2 : CrawlState),
        CrawlStep sd su mp pages s s2 →
        s2.visited = s.visited ∨
          ∃ u, u ∉ s.visited ∧ s2.visited = insert u s.visited) ∧
    (∀ (pages : Url → List Url) (maxDepth : Nat) (s s2 : SiteState),
        siteStep pages maxDepth s = some s2 →
        s2.visited = s.visited ∨
          ∃ u, u ∉ s.visited ∧ s2.visited = insertL u s.visited) :=
  ⟨crawlReachable_disjoint, crawlStep_visited, siteStep_visited⟩

/-- Witness for C4: the initial crawl state is disjoint, and the first
`crawl_site` step from the three-page site visits the fresh start URL. -/
theorem c4_frontier_witness :
    Disjoint (crawlInit scnBase).visited (crawlInit scnBase).toVisit ∧
    (siteState1.visited = (siteInit siteS).visited ∨
      ∃ u, u ∉ (siteInit siteS).visited ∧
        siteState1.visited = insertL u (siteInit siteS).visited) := by
  constructor
  · exact c4_frontier.1 SKIP_DOMAINS SKIP_URLS 100 (fun _ => .ok []) scnBase
      (crawlInit scnBase) Relation.ReflTransGen.refl
  · exact c4_frontier.2.2 sitePages 3 (siteInit siteS) siteState1 (by decide)

/-- Counterexample for C4 as stated: in `crawl_site`, after two loop
iterations on the three-page site the pending deque holds `/b` twice (a link
already pending was re-queued), and after three iterations `/b` is both
visited and still pending — `visited ∩ pending ≠ ∅`. -/
theorem c4_counterexample :
    (siteSteps sitePages 3 2 (siteInit siteS)).queue.map Prod.fst =
      [siteB, siteB] ∧
    siteB ∈ (siteSteps sitePages 3 3 (siteInit siteS)).visited ∧
    siteB ∈ (siteSteps sitePages 3 3 (siteInit siteS)).queue.map Prod.fst := by
  decide

/-- Claim C5 (amended): the `external_link_checker` normalizer rejects every
href whose resolved scheme is not http/https (which covers `javascript:`,
`mailto:` and `tel:` references), but a fragment-only href resolves to the
base URL with that fragment and is accepted; the scenario page therefore
yields three accepted URLs — `/a` (internal), the base URL with `#frag`
(internal) and `http://external.test/x` (external) — not two.  The
`get-links.py` extractor drops hrefs with the four raw prefixes before
resolution (but checks no scheme). -/
theorem c5_normalizer :
    (∀ (sd : List String) (su : List Url) (b : Url) (h : Href),
        (urljoin b h).scheme ≠ "http" → (urljoin b h).scheme ≠ "https" →
        normalizeHref sd su b h = .rejected) ∧
    get_links [] [] scnBase (.ok scnHrefs) = ([scnA, scnFrag], [scnExt]) ∧
    (∀ (b : Url) (h : Href) (rest : List Href), rawHrefSkipTest h = true →
        getLinksGLLoop b (h :: rest) = getLinksGLLoop b rest) := by
  refine ⟨?_, by decide, ?_⟩
  · intro sd su b h h1 h2
    have hsch : ((urljoin b h).scheme == "http" ||
        (urljoin b h).scheme == "https") = false := by
      simp [h1, h2]
    have hcl : classifyLink (urljoin b h) = none := by
      unfold classifyLink
      simp [hsch]
    simp only [normalizeHref, hcl]
    split
    · rfl
    · rfl
  · intro b h rest hskip
    simp [getLinksGLLoop, hskip]

/-- Witness for C5: the `javascript:` href of the scenario is rejected, and
a fragment-only href contributes nothing in the `get-links.py` variant. -/
theorem c5_normalizer_witness :
    normalizeHref [] [] scnBase (.otherScheme "javascript" "void(0)") =
      .rejected ∧
    getLinksGLLoop scnBase (Href.fragmentOnly "frag" :: [Href.rootPath "/a" ""]) =
      getLinksGLLoop scnBase [Href.rootPath "/a" ""] := by
  constructor
  · exact c5_normalizer.1 [] [] scnBase (.otherScheme "javascript" "void(0)")
      (by decide) (by decide)
  · exact c5_normalizer.2.2 scnBase (.fragmentOnly "frag")
      [Href.rootPath "/a" ""] (by decide)

/-- Counterexample for C5 as stated: the scenario yields three accepted
URLs, among them the resolved fragment-only reference. -/
theorem c5_counterexample :
    (get_links [] [] scnBase (.ok scnHrefs)).1.length +
      (get_links [] [] scnBase (.ok scnHrefs)).2.length = 3 ∧
    scnFrag ∈ (get_links [] [] scnBase (.ok scnHrefs)).1 := by
  decide

/-- The spec's wording for the internal-host criterion, for comparison with
the code's `classifyLink`: the resolved host equals the configured root
domain or is a subdomain of it (i.e. extends it at a dot boundary). -/
def hostEqualsOrSubdomain (root host : String) : Bool :=
  host == root || strEndsWith host ("." ++ root)

/-- Claim C6 (amended): among accepted (http/https) URLs, the code
classifies as internal exactly the hosts with the string suffix
`soton.ac.uk` — no label boundary is required, so a host such as
`notsoton.ac.uk` is also internal — and all other accepted URLs as
external. -/
theorem c6_internal_iff_suffix :
    ∀ u : Url, (u.scheme == "http" || u.scheme == "https") = true →
      (classifyLink u = some LinkClass.internal ↔
        strEndsWith u.netloc "soton.ac.uk" = true) ∧
      (classifyLink u = some LinkClass.external ↔
        strEndsWith u.netloc "soton.ac.uk" = false) := by
  intro u hs
  unfold classifyLink
  cases he : strEndsWith u.netloc "soton.ac.uk" <;> simp [hs, he]

/-- Witness for C6: the seed host is classified internal, matching the
suffix test. -/
theorem c6_internal_iff_suffix_witness :
    (classifyLink scnBase = some LinkClass.internal ↔
      strEndsWith scnBase.netloc "soton.ac.uk" = true) ∧
    (classifyLink scnBase = some LinkClass.external ↔
      strEndsWith scnBase.netloc "soton.ac.uk" = false) :=
  c6_internal_iff_suffix scnBase (by decide)

/-- Counterexample for C6 as stated: `notsoton.ac.uk` is classified
internal although it neither equals `soton.ac.uk` nor is a subdomain of
it. -/
theorem c6_counterexample :
    classifyLink notSotonHost = some LinkClass.internal ∧
    hostEqualsOrSubdomain "soton.ac.uk" notSotonHost.netloc = false := by
  decide

/-- Claim C7 (amended): `check_single_url` never raises — its outcome's
status is an HTTP status code or an error string carrying one of the three
prefixes `Timeout after `, `Connection error: `, `Unexpected error: `.
`check_link` likewise always returns an outcome instead of raising, but it
collapses every failure to the single status string `"Error"` (the
description going to the content-type slot), not the three-kind taxonomy. -/
theorem c7_total_outcomes :
    (∀ (tmo : Nat) (net : Nat → NetResult) (u p : String) (l : Nat),
      (∃ n, (checkSingleUrl tmo net u p l).status = .code n) ∨
      (∃ s, (checkSingleUrl tmo net u p l).status = .err s ∧
        (strStartsWith s "Timeout after " = true ∨
         strStartsWith s "Connection error: " = true ∨
         strStartsWith s "Unexpected error: " = true))) ∧
    (∀ (fr : FetchResult) (u : Url),
      (∃ n ct, check_link fr u = (u, .code n, ct)) ∨
      (∃ e, check_link fr u = (u, .err "Error", e))) := by
  constructor
  · intro tmo net u p l
    unfold checkSingleUrl
    rw [checkSingleUrlRun_eq]
    cases hr : net 1 with
    | success st ct => exact Or.inl ⟨st, by simp [checkBody]⟩
    | timeoutErr =>
        refine Or.inr ⟨"Timeout after " ++ (toString tmo ++ " seconds"),
          ?_, Or.inl (strStartsWith_append _ _)⟩
        simp [checkBody, String.append_assoc]
    | connError e =>
        refine Or.inr ⟨"Connection error: " ++ e, ?_,
          Or.inr (Or.inl (strStartsWith_append _ _))⟩
        simp [checkBody]
    | unexpected e =>
        refine Or.inr ⟨"Unexpected error: " ++ e, ?_,
          Or.inr (Or.inr (strStartsWith_append _ _))⟩
        simp [checkBody]
  · intro fr u
    cases fr with
    | ok st ct => exact Or.inl ⟨st, ct, rfl⟩
    | exc e => exact Or.inr ⟨e, rfl⟩

/-- Counterexample for C7 as stated: on an exception, `check_link` reports
the status string `"Error"`, which carries none of the three taxonomy
prefixes. -/
theorem c7_counterexample :
    check_link (.exc "timeout") scnExt = (scnExt, .err "Error", "timeout") ∧
    strStartsWith "Error" "Timeout after " = false ∧
    strStartsWith "Error" "Connection error: " = false ∧
    strStartsWith "Error" "Unexpected error: " = false := by
  decide

/-- Claim C9 (confirmed): normalization is idempotent — feeding an accepted
URL back to the normalizer against the same base returns the same URL with
the same classification (re-joining an absolute URL leaves it unchanged,
the skip test and the classifier are functions of that URL alone). -/
theorem c9_idempotent :
    ∀ (sd : List String) (su : List Url) (b : Url) (h : Href) (u : Url),
      (normalizeHref sd su b h = .internal u →
        normalizeHref sd su b (.absolute u) = .internal u) ∧
      (normalizeHref sd su b h = .external u →
        normalizeHref sd su b (.absolute u) = .external u) := by
  intro sd su b h u
  constructor
  · intro hn
    obtain ⟨rfl, hsk, hcl⟩ := normalizeHref_internal sd su b h u hn
    simp only [normalizeHref, urljoin_reabs, hsk, hcl]
    rfl
  · intro hn
    obtain ⟨rfl, hsk, hcl⟩ := normalizeHref_external sd su b h u hn
    simp only [normalizeHref, urljoin_reabs, hsk, hcl]
    rfl

/-- Witness for C9: re-normalizing the accepted internal URL `/a` and the
accepted external URL of the scenario returns them unchanged. -/
theorem c9_idempotent_witness :
    normalizeHref [] [] scnBase (.absolute scnA) = .internal scnA ∧
    normalizeHref [] [] scnBase (.absolute scnExt) = .external scnExt := by
  constructor
  · exact (c9_idempotent [] [] scnBase (.rootPath "/a" "") scnA).1 (by decide)
  · exact (c9_idempotent [] [] scnBase (.absolute scnExt) scnExt).2 (by decide)

end LinkChecker
